import Mathlib

/-!
Verification of the KAN-TTS dataset engine (`kantts/datasets/dataset.py`):
padding, collation, masking and caching, shallowly embedded in Lean.

Conventions of the embedding:
* numpy 1-D integer arrays become `List ℤ`, float arrays become `List ℚ`
  (exact rationals standing for the reals the code computes with);
* 2-D arrays become `List (List ℚ)` (frame axis outermost);
* calls into the random number generator are modelled by explicit
  parameters: a uniform draw becomes a supplied list of rationals, a
  shuffle becomes a supplied permutation, `randint` becomes a supplied
  draw reduced modulo the range size;
* a Python statement that can raise (`assert`, `np.random.randint` on an
  empty range) becomes an `Option`, with `none` for the raised exception.
-/

namespace KanTts

/-! ### Padder (`Padder` class) -/

/-- `np.insert(xs, pos, values)` for a 1-D array: insert `vals` before
position `pos`. -/
def npInsert (xs : List ℤ) (pos : ℕ) (vals : List ℤ) : List ℤ :=
  xs.take pos ++ vals ++ xs.drop pos

/-- `Padder._pad_durations(duration, max_in_len, max_out_len)`.
If the frame sum is below `maxOut`, insert one synthetic symbol holding
the deficit and then zero filler symbols (`[0] * (max_in_len - symbolnum - 1)`,
which is empty when the count is not positive, as in Python); otherwise
only insert zero fillers when the symbol count is below `maxIn`. -/
def padDurations (duration : List ℤ) (maxIn maxOut : ℕ) : List ℤ :=
  let framenum := duration.sum
  let symbolnum := duration.length
  if framenum < (maxOut : ℤ) then
    let padframenum := (maxOut : ℤ) - framenum
    let d1 := npInsert duration symbolnum [padframenum]
    npInsert d1 (symbolnum + 1) (List.replicate (maxIn - symbolnum - 1) 0)
  else
    if symbolnum < maxIn then
      npInsert duration symbolnum (List.replicate (maxIn - symbolnum) 0)
    else
      duration

/-- `Padder._pad1D(x, length, pad)`: right-pad a 1-D array to `length`. -/
def pad1D {α : Type} (x : List α) (length : ℕ) (pad : α) : List α :=
  x ++ List.replicate (length - x.length) pad

/-- `Padder._pad2D(x, length, pad)`: right-pad a 2-D array along axis 0,
keeping the row width. -/
def pad2D (x : List (List ℚ)) (length : ℕ) (pad : ℚ) : List (List ℚ) :=
  x ++ List.replicate (length - x.length) (List.replicate (x.headD []).length pad)

/-- `Padder._round_up(x, multiple)`. -/
def roundUp (x multiple : ℕ) : ℕ :=
  let remainder := x % multiple
  if remainder = 0 then x else x + multiple - remainder

/-- `Padder._prepare_scalar_inputs(inputs, max_len, pad)`: pad each 1-D
array to the shared maximum and stack. -/
def prepareScalarInputs {α : Type} (inputs : List (List α)) (maxLen : ℕ) (pad : α) :
    List (List α) :=
  inputs.map (fun x => pad1D x maxLen pad)

/-- `Padder._prepare_targets(targets, max_len, pad)`: pad each 2-D array
along axis 0 and stack. -/
def prepareTargets (targets : List (List (List ℚ))) (maxLen : ℕ) (pad : ℚ) :
    List (List (List ℚ)) :=
  targets.map (fun t => pad2D t maxLen pad)

/-- `Padder._prepare_durations(durations, max_in_len, max_out_len)`. -/
def prepareDurations (durations : List (List ℤ)) (maxIn maxOut : ℕ) :
    List (List ℤ) :=
  durations.map (fun t => padDurations t maxIn maxOut)

/-! ### Beta-binomial prior (`beta_binomial_prior_distribution`) -/

/-- The beta-binomial probability mass function at `k` for `n` trials and
shape parameters `a`, `b` (scipy `betabinom(n, a, b).pmf(k)`), written with
the Gamma factors cancelled into finite products so it is exact on `ℚ`:
`C(n,k) · ∏_{j<k}(a+j) · ∏_{j<n-k}(b+j) / ∏_{j<n}(a+b+j)`. -/
def betabinomPmf (n : ℕ) (a b : ℚ) (k : ℕ) : ℚ :=
  (n.choose k : ℚ) * ((Finset.range k).prod (fun j => a + j))
    * ((Finset.range (n - k)).prod (fun j => b + j))
    / ((Finset.range n).prod (fun j => a + b + j))

/-- `beta_binomial_prior_distribution(phoneme_count, mel_count, scaling)`:
for each frame `i in range(1, M + 1)` the beta-binomial pmf with
`a = scaling * i`, `b = scaling * (M + 1 - i)` evaluated on `np.arange(0, P)`. -/
def betaBinomialPriorDistribution (P M : ℕ) (scaling : ℚ) : List (List ℚ) :=
  (List.range M).map (fun (i0 : ℕ) =>
    (List.range P).map (fun (k : ℕ) =>
      betabinomPmf P (scaling * ((i0 : ℚ) + 1))
        (scaling * ((M : ℚ) + 1 - ((i0 : ℚ) + 1))) k))

/-! ### Vocoder dataset: trim step of `Voc_Dataset.__getitem__` -/

/-- Source index for the `j`-th element appended by
`np.pad(x, (0, n), mode="reflect")` on an array of length `L`: the usual
triangle-wave reflection with period `2 * (L - 1)`. -/
def reflectIndex (L j : ℕ) : ℕ :=
  if L ≤ 1 then 0
  else
    let m := L - 1
    let t := (L + j) % (2 * m)
    if t ≤ m then t else 2 * m - t

/-- `np.pad(wav, (0, n), mode="reflect")`. -/
def reflectPad (x : List ℚ) (n : ℕ) : List ℚ :=
  x ++ (List.range n).map (fun j => x.getD (reflectIndex x.length j) 0)

/-- The length-matching step of `Voc_Dataset.__getitem__`: reflection-pad
the waveform by `n_fft`, truncate to `len(mel) * hop_length`, and assert
the lengths now agree (`none` models the `AssertionError`). -/
def vocTrim (wav : List ℚ) (mel : List (List ℚ)) (nFft hop : ℕ) :
    Option (List ℚ × List (List ℚ)) :=
  let padded := reflectPad wav nFft
  let trimmed := padded.take (mel.length * hop)
  if mel.length * hop = trimmed.length then some (trimmed, mel) else none

/-! ### Vocoder dataset: `Voc_Dataset.collate_fn` -/

/-- One batch member of the vocoder collator: the `(wav_data, mel_data)`
pair returned by `Voc_Dataset.__getitem__`. -/
structure VocItem where
  wav : List ℚ
  mel : List (List ℚ)

/-- `np.random.randint(low, high)`: raises (`none`) unless `low < high`;
otherwise a uniform draw in `[low, high)`, modelled by reducing the
supplied raw draw modulo the range size. -/
def npRandint (low high : ℤ) (draw : ℕ) : Option ℤ :=
  if low < high then some (low + (draw : ℤ) % (high - low)) else none

/-- Python slice `x[start:stop]` for non-negative bounds. -/
def pySlice {α : Type} (x : List α) (start stop : ℕ) : List α :=
  (x.drop start).take (stop - start)

/-- `Voc_Dataset.collate_fn` with `aux_context_window = 0`: draw one start
frame per batch member with `np.random.randint(0, mel_length - batch_max_frames)`
(`batch_max_frames = batch_max_steps // hop_length`), then crop the
waveform at `[start * hop, start * hop + batch_max_steps)` and the mel at
`[start, start + batch_max_frames)`.  The supplied `draws` feed the
per-member `randint` calls; `none` models the `ValueError` raised when
some draw range is empty. -/
def vocCollate (hop batchMaxSteps : ℕ) (batch : List VocItem) (draws : List ℕ) :
    Option (List (List ℚ × List (List ℚ))) :=
  let batchMaxFrames := batchMaxSteps / hop
  let startFrames := (batch.zip draws).mapM
    (fun p => npRandint 0 ((p.1.mel.length : ℤ) - (batchMaxFrames : ℤ)) p.2)
  startFrames.map (fun starts =>
    (batch.zip starts).map (fun p =>
      let s := p.2.toNat
      (pySlice p.1.wav (s * hop) (s * hop + batchMaxSteps),
       pySlice p.1.mel s (s + batchMaxFrames))))

/-! ### Masking actor (`MaskingActor`) -/

/-- `MaskingActor._get_random_mask(length, p1)`: threshold a vector of
uniform draws at `p1`, giving a 0/1 mask.  The uniform draws are supplied
in `uniforms` (out-of-range positions default to `1`, i.e. unmasked). -/
def getRandomMask (length : ℕ) (p1 : ℚ) (uniforms : List ℚ) : List ℕ :=
  (List.range length).map (fun i => if uniforms.getD i 1 < p1 then 1 else 0)

/-- `np.where(mask == 1)[0]`: the ascending list of positions carrying 1. -/
def maskOnes (mask : List ℕ) : List ℕ :=
  (List.range mask.length).filter (fun i => mask.getD i 0 == 1)

/-- Fancy-index assignment `xs[idxs] = v`: write `v` at every index of
`idxs` (out-of-range writes are dropped, which never happens on the
in-range index lists the masking code builds). -/
def writeAll (xs : List ℤ) (idxs : List ℕ) (v : ℤ) : List ℤ :=
  idxs.foldl (fun acc i => acc.set i v) xs

/-- First slice of the shuffled masked-index set:
`mask_id[rand[0 : floor(mask_len * p2)]]`. -/
def maskIdP2 (mask : List ℕ) (p2 : ℚ) (rand : List ℕ) : List ℕ :=
  let maskId := maskOnes mask
  (rand.take ((Int.floor ((maskId.length : ℚ) * p2)).toNat)).map
    (fun j => maskId.getD j 0)

/-- Second slice of the shuffled masked-index set:
`mask_id[rand[floor(mask_len * p2) : floor(mask_len * p2) + floor(mask_len * p3)]]`. -/
def maskIdP3 (mask : List ℕ) (p2 p3 : ℚ) (rand : List ℕ) : List ℕ :=
  let maskId := maskOnes mask
  ((rand.drop ((Int.floor ((maskId.length : ℚ) * p2)).toNat)).take
      ((Int.floor ((maskId.length : ℚ) * p3)).toNat)).map
    (fun j => maskId.getD j 0)

/-- `MaskingActor._input_bert_masking(sequence_array, nb_symbol_category,
mask_symbol_id, mask, p2, p3, p4)`.  The internal `np.random.shuffle` of
`np.arange(mask_len)` is supplied as `rand`; the single
`random.randint(0, nb_symbol_category - 1)` draw is supplied as `tok`. -/
def inputBertMasking (seq : List ℤ) (maskSym : ℤ) (mask : List ℕ)
    (p2 p3 : ℚ) (rand : List ℕ) (tok : ℤ) : List ℤ :=
  let seqMask := seq
  let idx2 := maskIdP2 mask p2 rand
  let seqMask := if 0 < idx2.length then writeAll seqMask idx2 maskSym else seqMask
  let idx3 := maskIdP3 mask p2 p3 rand
  let seqMask := if 0 < idx3.length then writeAll seqMask idx3 tok else seqMask
  seqMask

/-- The randomness one call of `BERT_Text_Dataset.bert_masking` consumes:
the uniform vector behind `_get_random_mask`, the shuffled index order
behind `np.random.shuffle`, and the `random.randint` token draw. -/
structure MaskRng where
  uniforms : List ℚ
  perm : List ℕ
  tok : ℤ

/-- `BERT_Text_Dataset.bert_masking(ling_data)`: draw a random mask over
the symbol stream `ling_data[0]`, force the last position unmasked
(`mask[-1] = 0`), and corrupt the stream with `_input_bert_masking`.
Returns `(mask, ling_sy_masked_data)`. -/
def bertMasking (p1 p2 p3 : ℚ) (maskSym : ℤ) (rng : MaskRng)
    (lingData : List (List ℤ)) : List ℕ × List ℤ :=
  let stream0 := lingData.getD 0 []
  let length := stream0.length
  let mask := getRandomMask length p1 rng.uniforms
  let mask := mask.set (length - 1) 0
  let masked := inputBertMasking stream0 maskSym mask p2 p3 rng.perm rng.tok
  (mask, masked)

/-! ### Frame model of `_input_bert_masking` (for the no-mutation claim)

The Python function receives references to the caller's arrays.  The
environment below carries one field per array the function can reach;
each source statement is mirrored on it, so which array every write
lands in is explicit. -/

/-- The arrays reachable from `_input_bert_masking`: the two arguments and
the local copy the function builds. -/
structure BertMaskEnv where
  sequence_array : List ℤ
  mask : List ℕ
  sequence_array_mask : List ℤ

/-- `_input_bert_masking` as statement-by-statement state passing: the
first statement copies `sequence_array` into the fresh
`sequence_array_mask`; both fancy-index assignments target only that
field.  Returns the final environment and the returned array. -/
def inputBertMaskingRun (seq : List ℤ) (maskSym : ℤ) (mask : List ℕ)
    (p2 p3 : ℚ) (rand : List ℕ) (tok : ℤ) : BertMaskEnv × List ℤ :=
  let env : BertMaskEnv := ⟨seq, mask, seq⟩
  let idx2 := maskIdP2 env.mask p2 rand
  let env := if 0 < idx2.length then
      { env with sequence_array_mask := writeAll env.sequence_array_mask idx2 maskSym }
    else env
  let idx3 := maskIdP3 env.mask p2 p3 rand
  let env := if 0 < idx3.length then
      { env with sequence_array_mask := writeAll env.sequence_array_mask idx3 tok }
    else env
  (env, env.sequence_array_mask)

/-! ### `BERT_Text_Dataset`: item access and cache -/

/-- The mutable state of a `BERT_Text_Dataset`: the manifest transcripts
and the process-shared cache, one slot per example (a Python tuple,
modelled as the list of linguistic tuples it holds: `()` is `[]`,
`(ling_data,)` is `[ling_data]`). -/
structure BertDataset where
  meta : List String
  allowCache : Bool
  caches : List (List (List (List ℤ)))

/-- `BERT_Text_Dataset.__getitem__(idx)`: on a cache hit reuse the cached
clean linguistic tuple, otherwise encode the transcript (the external
tokenizer is the parameter `encode`) and, when caching, store the clean
tuple; either way run `bert_masking` with this access's randomness.
Returns `((ling_data, ling_sy_masked_data, bert_mask), new state)`. -/
def bertGetItem (p1 p2 p3 : ℚ) (maskSym : ℤ)
    (encode : String → List (List ℤ)) (ds : BertDataset) (idx : ℕ)
    (rng : MaskRng) :
    (List (List ℤ) × List ℤ × List ℕ) × BertDataset :=
  if ds.allowCache ∧ (ds.caches.getD idx []).length ≠ 0 then
    let lingData := (ds.caches.getD idx []).getD 0 []
    let mm := bertMasking p1 p2 p3 maskSym rng lingData
    ((lingData, mm.2, mm.1), ds)
  else
    let lingData := encode (ds.meta.getD idx "")
    let mm := bertMasking p1 p2 p3 maskSym rng lingData
    if ds.allowCache then
      ((lingData, mm.2, mm.1), { ds with caches := ds.caches.set idx [lingData] })
    else
      ((lingData, mm.2, mm.1), ds)

/-- The cache invariant: every slot is either the empty tuple or the
one-element tuple holding exactly the clean encoded linguistic data of
its index. -/
def BertCacheInv (encode : String → List (List ℤ)) (ds : BertDataset) : Prop :=
  ∀ idx : ℕ, ds.caches.getD idx [] = [] ∨
    ds.caches.getD idx [] = [encode (ds.meta.getD idx "")]

/-! ### Split-file generation (`gen_metafile`) -/

/-- Python slice `l[:k]` for a possibly negative `k`. -/
def pySliceTo {α : Type} (l : List α) (k : ℤ) : List α :=
  if k < 0 then l.take (l.length - (-k).toNat) else l.take k.toNat

/-- Python slice `l[k:]` for a possibly negative `k`. -/
def pySliceFrom {α : Type} (l : List α) (k : ℤ) : List α :=
  if k < 0 then l.drop (l.length - (-k).toNat) else l.drop k.toNat

/-- `Voc_Dataset.gen_metafile(wav_dir, out_dir, split_ratio)` after the
in-place `random.shuffle`: `wavFiles` is the already-shuffled file list,
`indexOf` models `os.path.splitext(os.path.basename(...))[0]`, and the
three `existsXxx` predicates model `os.path.exists` on the per-index
artifact files.  Returns the (train, valid) line lists. -/
def vocGenMetafile (wavFiles : List String) (indexOf : String → String)
    (existsFrameF0 existsFrameUv existsMel : String → Bool)
    (splitRatio : ℚ) : List String × List String :=
  let numTrain : ℤ := Int.floor ((wavFiles.length : ℚ) * splitRatio) - 1
  let keep : String → Bool := fun w =>
    existsFrameF0 (indexOf w) && existsFrameUv (indexOf w) && existsMel (indexOf w)
  ((pySliceTo wavFiles numTrain).filter keep |>.map indexOf,
   (pySliceFrom wavFiles numTrain).filter keep |>.map indexOf)

/-- `BERT_Text_Dataset.gen_metafile(raw_meta_file, out_dir, split_ratio)`
after the in-place `random.shuffle`: `lines` is the already-shuffled
manifest.  Every sliced line is written; there is no artifact filter. -/
def bertGenMetafile (lines : List String) (splitRatio : ℚ) :
    List String × List String :=
  let numTrain : ℤ := Int.floor ((lines.length : ℚ) * splitRatio) - 1
  (pySliceTo lines numTrain, pySliceFrom lines numTrain)

/-- Modelled from the spec: the split generation the spec describes for
`bert_train.lst` / `bert_valid.lst`, which additionally filters out
entries whose required per-utterance artifact files are missing (the
artifact check is abstracted as the predicate `hasArtifacts` on the
line's index, the part before the tab). -/
def bertGenMetafileSpec (lines : List String) (hasArtifacts : String → Bool)
    (splitRatio : ℚ) : List String × List String :=
  let numTrain : ℤ := Int.floor ((lines.length : ℚ) * splitRatio) - 1
  ((pySliceTo lines numTrain).filter hasArtifacts,
   (pySliceFrom lines numTrain).filter hasArtifacts)

/-! ### Acoustic-model collator (`AM_Dataset.collate_fn`) -/

/-- One batch member of the acoustic-model collator: the tuple returned
by `AM_Dataset.__getitem__` (`ling_data` is the list of parallel integer
streams, stream 0 being the symbol stream). -/
structure AMItem where
  ling : List (List ℤ)
  mel : List (List ℚ)
  dur : List ℤ
  f0 : List ℚ
  energy : List ℚ

/-- The fields of the `data_dict` built by `AM_Dataset.collate_fn` that
this development tracks. -/
structure AMBatch where
  inputsSy : List (List ℤ)
  inputsTone : List (List ℤ)
  validInputLengths : List ℤ
  validOutputLengths : List ℤ
  melTargets : List (List (List ℚ))
  durations : List (List ℤ)

/-- `AM_Dataset.collate_fn(batch)` (duration-present regime): compute the
batch maxima, pad the linguistic streams, record
`valid_input_lengths = len(x[0][0]) - 1` and `valid_output_lengths = len(x[1])`,
round the output budget up to `outputsPerStep`, and pad mel targets and
durations.  `padSy`/`padTone` model `ling_unit._sub_unit_pad`. -/
def amCollate (padSy padTone : ℤ) (outputsPerStep : ℕ) (batch : List AMItem) :
    AMBatch :=
  let maxInputLength := batch.foldl (fun a x => max a (x.ling.getD 0 []).length) 0
  let inputsSy := prepareScalarInputs (batch.map (fun x => x.ling.getD 0 [])) maxInputLength padSy
  let inputsTone := prepareScalarInputs (batch.map (fun x => x.ling.getD 1 [])) maxInputLength padTone
  let validInputLengths := batch.map (fun x => ((x.ling.getD 0 []).length : ℤ) - 1)
  let validOutputLengths := batch.map (fun x => (x.mel.length : ℤ))
  let maxOutputLength := batch.foldl (fun a x => max a x.mel.length) 0
  let maxOutputRoundLength := roundUp maxOutputLength outputsPerStep
  let melTargets := prepareTargets (batch.map (fun x => x.mel)) maxOutputRoundLength 0
  let durations := prepareDurations (batch.map (fun x => x.dur)) maxInputLength maxOutputRoundLength
  ⟨inputsSy, inputsTone, validInputLengths, validOutputLengths, melTargets, durations⟩

/-! ### Helper lemmas -/

theorem npInsert_length (xs : List ℤ) (pos : ℕ) (vals : List ℤ)
    (h : pos ≤ xs.length) :
    (npInsert xs pos vals).length = xs.length + vals.length := by
  simp [npInsert]
  omega

theorem npInsert_sum (xs : List ℤ) (pos : ℕ) (vals : List ℤ) :
    (npInsert xs pos vals).sum = xs.sum + vals.sum := by
  have h := congrArg List.sum (List.take_append_drop pos xs)
  simp only [List.sum_append] at h
  simp only [npInsert, List.sum_append]
  omega

theorem reflectPad_length (x : List ℚ) (n : ℕ) :
    (reflectPad x n).length = x.length + n := by
  simp [reflectPad]

/-! ### C1: `Padder._pad_durations` output length and frame sum -/

/-- C1 (counterexample): the claim states that for every `max_in_len` at
least the duration array's length the output length is exactly
`max_in_len`; with `duration = [1]`, `max_in_len = 1`, `max_out_len = 5`
we are in the deficit branch and the output is `[1, 4]` of length 2. -/
theorem claim_C1_counterexample :
    ([1] : List ℤ).length ≤ 1 ∧ ([1] : List ℤ).sum < (5 : ℤ) ∧
    (padDurations [1] 1 5).length ≠ 1 := by
  refine ⟨by decide, by decide, ?_⟩
  decide

/-- C1 (amended): for `max_in_len ≥ len(duration)`, `_pad_durations`
returns, in the deficit branch with `len(duration) < max_in_len`, an
array of length `max_in_len` summing exactly to `max_out_len`; in the
deficit branch with `len(duration) = max_in_len`, an array of length
`max_in_len + 1` (one over budget) still summing to `max_out_len`; and
in the surplus branch an array of length `max_in_len` with the sum
unchanged. -/
theorem claim_C1_pad_durations_amended (duration : List ℤ) (maxIn maxOut : ℕ)
    (h : duration.length ≤ maxIn) :
    (duration.sum < (maxOut : ℤ) → duration.length < maxIn →
      (padDurations duration maxIn maxOut).length = maxIn ∧
      (padDurations duration maxIn maxOut).sum = maxOut) ∧
    (duration.sum < (maxOut : ℤ) → duration.length = maxIn →
      (padDurations duration maxIn maxOut).length = maxIn + 1 ∧
      (padDurations duration maxIn maxOut).sum = maxOut) ∧
    ((maxOut : ℤ) ≤ duration.sum →
      (padDurations duration maxIn maxOut).length = maxIn ∧
      (padDurations duration maxIn maxOut).sum = duration.sum) := by
  have hd1len : ∀ v : ℤ, (npInsert duration duration.length [v]).length
      = duration.length + 1 := by
    intro v
    simp [npInsert_length duration duration.length [v] le_rfl]
  refine ⟨?_, ?_, ?_⟩
  · intro hsum hlt
    simp only [padDurations, if_pos hsum]
    constructor
    · rw [npInsert_length _ _ _ (by rw [hd1len]), hd1len]
      simp
      omega
    · rw [npInsert_sum, npInsert_sum]
      simp
  · intro hsum heq
    simp only [padDurations, if_pos hsum]
    constructor
    · rw [npInsert_length _ _ _ (by rw [hd1len]), hd1len]
      simp
      omega
    · rw [npInsert_sum, npInsert_sum]
      simp
  · intro hsum
    have hnot : ¬ duration.sum < (maxOut : ℤ) := not_lt.mpr hsum
    simp only [padDurations, if_neg hnot]
    by_cases hlt : duration.length < maxIn
    · simp only [if_pos hlt]
      constructor
      · rw [npInsert_length _ _ _ le_rfl]
        simp
        omega
      · rw [npInsert_sum]
        simp
    · have : duration.length = maxIn := le_antisymm h (not_lt.mp hlt)
      simp [if_neg hlt, this]

/-- C1 (witness): the amended theorem at `duration = [2, 3]`,
`max_in_len = 4`, `max_out_len = 10`. -/
theorem claim_C1_witness :
    ([2, 3] : List ℤ).length ≤ 4 ∧
    ((([2, 3] : List ℤ).sum < (10 : ℤ) → ([2, 3] : List ℤ).length < 4 →
      (padDurations [2, 3] 4 10).length = 4 ∧
      (padDurations [2, 3] 4 10).sum = 10) ∧
    (([2, 3] : List ℤ).sum < (10 : ℤ) → ([2, 3] : List ℤ).length = 4 →
      (padDurations [2, 3] 4 10).length = 4 + 1 ∧
      (padDurations [2, 3] 4 10).sum = 10) ∧
    ((10 : ℤ) ≤ ([2, 3] : List ℤ).sum →
      (padDurations [2, 3] 4 10).length = 4 ∧
      (padDurations [2, 3] 4 10).sum = ([2, 3] : List ℤ).sum)) :=
  ⟨by decide, claim_C1_pad_durations_amended [2, 3] 4 10 (by decide)⟩

/-! ### C2: trim invariant of `Voc_Dataset.__getitem__` -/

/-- C2 (counterexample): the claim states the assertion at the end of the
trim step never fails; with a 1-sample waveform, `n_fft = 4`, 10 mel
frames and `hop_length = 2` the padded waveform has 5 samples, the
truncation target is 20, and the assertion raises (`none`). -/
theorem claim_C2_counterexample :
    vocTrim [0] (List.replicate 10 ([] : List ℚ)) 4 2 = none := by
  decide

/-- C2 (amended): the trim step succeeds exactly when
`len(mel) * hop_length ≤ len(wav) + n_fft`; in that case the returned
waveform has length exactly `len(mel) * hop_length` (so the assertion
passes), and otherwise the assertion fails. -/
theorem claim_C2_voc_trim_amended (wav : List ℚ) (mel : List (List ℚ))
    (nFft hop : ℕ) :
    ((vocTrim wav mel nFft hop).isSome ↔
      mel.length * hop ≤ wav.length + nFft) ∧
    (mel.length * hop ≤ wav.length + nFft →
      ∃ trimmed, vocTrim wav mel nFft hop = some (trimmed, mel) ∧
        trimmed.length = mel.length * hop) := by
  have key : vocTrim wav mel nFft hop
      = if mel.length * hop
            = ((reflectPad wav nFft).take (mel.length * hop)).length
        then some ((reflectPad wav nFft).take (mel.length * hop), mel)
        else none := rfl
  have hlen : ((reflectPad wav nFft).take (mel.length * hop)).length
      = min (mel.length * hop) (wav.length + nFft) := by
    rw [List.length_take, reflectPad_length]
  have hcond : (mel.length * hop
      = ((reflectPad wav nFft).take (mel.length * hop)).length)
      ↔ mel.length * hop ≤ wav.length + nFft := by
    rw [hlen]
    omega
  by_cases hle : mel.length * hop ≤ wav.length + nFft
  · have hc := hcond.mpr hle
    rw [key, if_pos hc]
    refine ⟨by simp [hle], fun _ => ⟨_, rfl, ?_⟩⟩
    rw [hlen]
    omega
  · have hc : ¬ (mel.length * hop
        = ((reflectPad wav nFft).take (mel.length * hop)).length) :=
      fun hcc => hle (hcond.mp hcc)
    rw [key, if_neg hc]
    exact ⟨by simp [hle], fun hcc => absurd hcc hle⟩

/-- C2 (witness): the amended theorem at an 8-sample waveform, 5 mel
frames, `n_fft = 4`, `hop_length = 2` (target 10 ≤ 12). -/
theorem claim_C2_witness :
    (((vocTrim [1, 2, 3, 4, 5, 6, 7, 8] (List.replicate 5 ([] : List ℚ)) 4 2).isSome ↔
      (List.replicate 5 ([] : List ℚ)).length * 2 ≤ ([1, 2, 3, 4, 5, 6, 7, 8] : List ℚ).length + 4) ∧
    ((List.replicate 5 ([] : List ℚ)).length * 2 ≤ ([1, 2, 3, 4, 5, 6, 7, 8] : List ℚ).length + 4 →
      ∃ trimmed, vocTrim [1, 2, 3, 4, 5, 6, 7, 8] (List.replicate 5 ([] : List ℚ)) 4 2
          = some (trimmed, List.replicate 5 ([] : List ℚ)) ∧
        trimmed.length = (List.replicate 5 ([] : List ℚ)).length * 2)) :=
  claim_C2_voc_trim_amended [1, 2, 3, 4, 5, 6, 7, 8] (List.replicate 5 []) 4 2

/-! ### C8: shape and content of `beta_binomial_prior_distribution` -/

/-- C8: for `P ≥ 1` phonemes and `M ≥ 1` frames,
`beta_binomial_prior_distribution(P, M, scaling)` has shape exactly
`(M, P)`, and its row `i` (1-based, `i ∈ [1, M]`) is the beta-binomial
pmf with `a = scaling * i`, `b = scaling * (M + 1 - i)` evaluated at the
phoneme positions `[0, P)`. -/
theorem claim_C8_beta_binomial_prior (P M : ℕ) (scaling : ℚ)
    (hP : 1 ≤ P) (hM : 1 ≤ M) :
    (betaBinomialPriorDistribution P M scaling).length = M ∧
    (∀ row ∈ betaBinomialPriorDistribution P M scaling, row.length = P) ∧
    (∀ i, 1 ≤ i → i ≤ M → ∀ k, k < P →
      ((betaBinomialPriorDistribution P M scaling).getD (i - 1) []).getD k 0
        = betabinomPmf P (scaling * (i : ℚ))
            (scaling * ((M : ℚ) + 1 - (i : ℚ))) k) := by
  have hdef : betaBinomialPriorDistribution P M scaling
      = (List.range M).map (fun (i0 : ℕ) =>
          (List.range P).map (fun (k : ℕ) =>
            betabinomPmf P (scaling * ((i0 : ℚ) + 1))
              (scaling * ((M : ℚ) + 1 - ((i0 : ℚ) + 1))) k)) := rfl
  have hlen : (betaBinomialPriorDistribution P M scaling).length = M := by
    rw [hdef, List.length_map, List.length_range]
  refine ⟨hlen, ?_, ?_⟩
  · intro row hrow
    rw [hdef, List.mem_map] at hrow
    obtain ⟨i0, _, hrow⟩ := hrow
    rw [← hrow, List.length_map, List.length_range]
  · intro i hi1 hiM k hk
    have hib : i - 1 < ((List.range M).map (fun (i0 : ℕ) =>
        (List.range P).map (fun (k : ℕ) =>
          betabinomPmf P (scaling * ((i0 : ℚ) + 1))
            (scaling * ((M : ℚ) + 1 - ((i0 : ℚ) + 1))) k))).length := by
      rw [List.length_map, List.length_range]
      omega
    have hkb : k < ((List.range P).map (fun (k : ℕ) =>
        betabinomPmf P (scaling * (((i - 1 : ℕ) : ℚ) + 1))
          (scaling * ((M : ℚ) + 1 - (((i - 1 : ℕ) : ℚ) + 1))) k)).length := by
      rw [List.length_map, List.length_range]
      omega
    rw [hdef, List.getD_eq_getElem _ _ hib, List.getElem_map, List.getElem_range,
      List.getD_eq_getElem _ _ hkb, List.getElem_map, List.getElem_range]
    have hcast : ((i - 1 : ℕ) : ℚ) + 1 = (i : ℚ) := by
      have h9 : ((i - 1 : ℕ) : ℚ) = (i : ℚ) - 1 := by
        push_cast [Nat.cast_sub hi1]
        ring
      rw [h9]
      ring
    rw [hcast]

/-- C8 (witness): the theorem at `P = 2`, `M = 2`, `scaling = 1`. -/
theorem claim_C8_witness :
    1 ≤ 2 ∧ 1 ≤ 2 ∧
    ((betaBinomialPriorDistribution 2 2 1).length = 2 ∧
    (∀ row ∈ betaBinomialPriorDistribution 2 2 1, row.length = 2) ∧
    (∀ i, 1 ≤ i → i ≤ 2 → ∀ k, k < 2 →
      ((betaBinomialPriorDistribution 2 2 1).getD (i - 1) []).getD k 0
        = betabinomPmf 2 (1 * (i : ℚ)) (1 * ((2 : ℚ) + 1 - (i : ℚ))) k)) :=
  ⟨by decide, by decide, claim_C8_beta_binomial_prior 2 2 1 (by decide) (by decide)⟩

/-! ### C9: `valid_input_lengths` of `AM_Dataset.collate_fn` -/

/-- C9: for every batch position, the acoustic-model collator's
`valid_input_lengths` entry is exactly the raw encoded symbol-stream
length of that example minus one (the appended terminator is excluded). -/
theorem claim_C9_valid_input_lengths (padSy padTone : ℤ) (r : ℕ)
    (batch : List AMItem) (i : ℕ) (h : i < batch.length) :
    (amCollate padSy padTone r batch).validInputLengths.length = batch.length ∧
    (amCollate padSy padTone r batch).validInputLengths.getD i 0
      = (((batch.get ⟨i, h⟩).ling.getD 0 []).length : ℤ) - 1 := by
  constructor
  · simp [amCollate]
  · rw [List.getD_eq_getElem _ _ (by simpa [amCollate] using h)]
    simp [amCollate]

/-- C9 (witness): the theorem at a singleton batch whose symbol stream
has length 3 (the reported valid length is 2). -/
theorem claim_C9_witness :
    0 < [(⟨[[1, 2, 3], [4, 5, 6]], [[1], [2]], [1, 1], [], []⟩ : AMItem)].length ∧
    ((amCollate 0 0 2 [⟨[[1, 2, 3], [4, 5, 6]], [[1], [2]], [1, 1], [], []⟩]).validInputLengths.length
        = [(⟨[[1, 2, 3], [4, 5, 6]], [[1], [2]], [1, 1], [], []⟩ : AMItem)].length ∧
      (amCollate 0 0 2 [⟨[[1, 2, 3], [4, 5, 6]], [[1], [2]], [1, 1], [], []⟩]).validInputLengths.getD 0 0
        = ((([(⟨[[1, 2, 3], [4, 5, 6]], [[1], [2]], [1, 1], [], []⟩ : AMItem)].get
            ⟨0, by decide⟩).ling.getD 0 []).length : ℤ) - 1) :=
  ⟨by decide, claim_C9_valid_input_lengths 0 0 2 _ 0 (by decide)⟩

/-! ### C7: `BERT_Text_Dataset.gen_metafile` split files -/

/-- C7 (counterexample): the claim states `gen_metafile` filters out
entries whose required artifact files are missing, as the vocoder and
acoustic variants do.  With a two-line shuffled manifest and every
artifact missing, the vocoder generator writes nothing, but the BERT
generator still writes both lines (`bert_valid.lst = ["a", "b"]`): no
filtering happens. -/
theorem claim_C7_counterexample :
    (bertGenMetafile ["a", "b"] (98 / 100)).2 = ["a", "b"] ∧
    (bertGenMetafileSpec ["a", "b"] (fun _ => false) (98 / 100)).2 = [] ∧
    (vocGenMetafile ["a", "b"] id (fun _ => false) (fun _ => false)
      (fun _ => false) (98 / 100)).2 = [] := by
  have hfl : Int.floor ((2 : ℚ) * (98 / 100)) = 1 := by
    norm_num
  refine ⟨?_, ?_, ?_⟩ <;>
    simp [bertGenMetafile, bertGenMetafileSpec, vocGenMetafile,
      pySliceFrom, pySliceTo, hfl]

/-- C7 (amended): `BERT_Text_Dataset.gen_metafile` writes the first
`floor(N * split_ratio) - 1` shuffled manifest lines to `bert_train.lst`
and the remainder to `bert_valid.lst`, with no artifact filtering: the
two lists together are exactly the shuffled manifest.  (Filtering the
code's output would give the spec's described behaviour.) -/
theorem claim_C7_bert_gen_metafile_amended (lines : List String) (ratio : ℚ)
    (h1 : 1 ≤ Int.floor ((lines.length : ℚ) * ratio))
    (h2 : Int.floor ((lines.length : ℚ) * ratio) ≤ (lines.length : ℤ)) :
    (bertGenMetafile lines ratio).1.length
      = (Int.floor ((lines.length : ℚ) * ratio) - 1).toNat ∧
    (bertGenMetafile lines ratio).1 ++ (bertGenMetafile lines ratio).2 = lines ∧
    (∀ hasArtifacts : String → Bool,
      bertGenMetafileSpec lines hasArtifacts ratio
        = ((bertGenMetafile lines ratio).1.filter hasArtifacts,
           (bertGenMetafile lines ratio).2.filter hasArtifacts)) := by
  have hnn : ¬ (Int.floor ((lines.length : ℚ) * ratio) - 1 < 0) := by omega
  refine ⟨?_, ?_, ?_⟩
  · simp only [bertGenMetafile, pySliceTo, if_neg hnn, List.length_take]
    omega
  · simp only [bertGenMetafile, pySliceTo, pySliceFrom, if_neg hnn]
    exact List.take_append_drop _ lines
  · intro hasArtifacts
    simp [bertGenMetafileSpec, bertGenMetafile]

/-- C7 (witness): the amended theorem on a 100-line shuffled manifest
with ratio `0.98` (`floor(98) - 1 = 97` train lines). -/
theorem claim_C7_witness :
    1 ≤ Int.floor (((List.replicate 100 "x").length : ℚ) * (98 / 100)) ∧
    Int.floor (((List.replicate 100 "x").length : ℚ) * (98 / 100))
      ≤ ((List.replicate 100 "x").length : ℤ) ∧
    ((bertGenMetafile (List.replicate 100 "x") (98 / 100)).1.length
      = (Int.floor (((List.replicate 100 "x").length : ℚ) * (98 / 100)) - 1).toNat ∧
    (bertGenMetafile (List.replicate 100 "x") (98 / 100)).1
        ++ (bertGenMetafile (List.replicate 100 "x") (98 / 100)).2
      = List.replicate 100 "x" ∧
    (∀ hasArtifacts : String → Bool,
      bertGenMetafileSpec (List.replicate 100 "x") hasArtifacts (98 / 100)
        = ((bertGenMetafile (List.replicate 100 "x") (98 / 100)).1.filter hasArtifacts,
           (bertGenMetafile (List.replicate 100 "x") (98 / 100)).2.filter hasArtifacts))) :=
  ⟨by norm_num, by norm_num,
    claim_C7_bert_gen_metafile_amended (List.replicate 100 "x") (98 / 100)
      (by norm_num) (by norm_num)⟩

/-! ### C3: failure condition and crop shapes of `Voc_Dataset.collate_fn` -/

theorem optionMapM_eq_none_iff {α β : Type} (f : α → Option β) :
    ∀ l : List α, l.mapM f = none ↔ ∃ a ∈ l, f a = none := by
  intro l
  rw [← List.mapM'_eq_mapM]
  induction l with
  | nil => simp [List.mapM']
  | cons a l ih =>
    show (do
        let b ← f a
        let bs ← List.mapM' f l
        pure (b :: bs) : Option (List β)) = none ↔ _
    cases hfa : f a with
    | none => simp [hfa]
    | some b =>
      cases hml : List.mapM' f l with
      | none =>
        obtain ⟨x, hx, hfx⟩ := ih.mp hml
        exact ⟨fun _ => ⟨x, List.mem_cons_of_mem a hx, hfx⟩, fun _ => rfl⟩
      | some bs =>
        constructor
        · intro h
          exact Option.noConfusion h
        · rintro ⟨x, hx, hfx⟩
          rcases List.mem_cons.mp hx with h | h
          · rw [h, hfa] at hfx
            exact absurd hfx (by simp)
          · exact absurd (ih.mpr ⟨x, h, hfx⟩) (by simp [hml])

theorem optionMapM_some_spec {α β : Type} (f : α → Option β) :
    ∀ (l : List α) (ys : List β), l.mapM f = some ys →
      ys.length = l.length ∧
      ∀ i (hi : i < l.length) (hy : i < ys.length),
        f (l.get ⟨i, hi⟩) = some (ys.get ⟨i, hy⟩) := by
  intro l
  rw [← List.mapM'_eq_mapM]
  induction l with
  | nil =>
    intro ys h
    have hys : ys = [] := by
      simpa [List.mapM'] using h.symm
    subst hys
    refine ⟨rfl, ?_⟩
    intro i hi hy
    simp at hi
  | cons a l ih =>
    intro ys h
    replace h : (do
        let b ← f a
        let bs ← List.mapM' f l
        pure (b :: bs) : Option (List β)) = some ys := h
    cases hfa : f a with
    | none => rw [hfa] at h; simp at h
    | some b =>
      rw [hfa] at h
      cases hml : List.mapM' f l with
      | none => rw [hml] at h; simp at h
      | some bs =>
        rw [hml] at h
        have hys : ys = b :: bs := by simpa using h.symm
        subst hys
        obtain ⟨hlen, hall⟩ := ih bs hml
        refine ⟨by simp [hlen], ?_⟩
        intro i hi hy
        match i with
        | 0 => simpa using hfa
        | n + 1 =>
          simpa using hall n (by simpa using hi) (by simpa using hy)

theorem pySlice_length {α : Type} (x : List α) (a b : ℕ) :
    (pySlice x a b).length = min (b - a) (x.length - a) := by
  simp [pySlice]

theorem npRandint_bounds (L : ℤ) (d : ℕ) (s : ℤ)
    (h : npRandint 0 L d = some s) : 0 ≤ s ∧ s < L := by
  unfold npRandint at h
  by_cases hL : (0 : ℤ) < L
  · rw [if_pos hL] at h
    have hs : s = 0 + (d : ℤ) % (L - 0) := by
      have := Option.some.inj h
      omega
    rw [hs]
    constructor
    · have := Int.emod_nonneg (d : ℤ) (by omega : L - 0 ≠ 0)
      omega
    · have := Int.emod_lt_of_pos (d : ℤ) (by omega : 0 < L - 0)
      omega
  · rw [if_neg hL] at h
    exact absurd h (by simp)

theorem cropLen_aux (hop bms bmf Lm s : ℕ)
    (hbms : bms < (bmf + 1) * hop)
    (hs : s ≤ Lm - bmf - 1) (hlong : bmf < Lm) :
    min ((s * hop + bms) - s * hop) (Lm * hop - s * hop) = bms ∧
    min ((s + bmf) - s) (Lm - s) = bmf := by
  have hmul : s * hop ≤ (Lm - bmf - 1) * hop :=
    Nat.mul_le_mul_right hop hs
  have hsum : (Lm - bmf - 1) * hop + (bmf + 1) * hop = Lm * hop := by
    rw [← Nat.add_mul]
    congr 1
    omega
  constructor <;> omega

theorem npRandint_eq_none_iff (L : ℤ) (d : ℕ) :
    npRandint 0 L d = none ↔ L ≤ 0 := by
  unfold npRandint
  by_cases hL : (0 : ℤ) < L
  · simp [if_pos hL]
    omega
  · simp [if_neg hL]
    omega

/-- C3 (counterexample): the claim states the collator fails only when
some member's mel length is strictly shorter than `batch_max_frames`;
with `hop_length = 2`, `batch_max_steps = 4` (`batch_max_frames = 2`) and
one member whose mel length is exactly 2 (not shorter), the draw range
`[0, 0)` is empty and `np.random.randint` still raises (`none`). -/
theorem claim_C3_counterexample :
    vocCollate 2 4 [⟨List.replicate 4 0, List.replicate 2 []⟩] [0] = none ∧
    ¬ ((⟨List.replicate 4 0, List.replicate 2 []⟩ : VocItem).mel.length < 4 / 2) := by
  constructor
  · rfl
  · decide

/-- C3 (amended): with per-member draws supplied, `collate_fn` fails
exactly when some batch member's mel frame length is at most
`batch_max_frames` (shorter than or equal to — equality also empties the
draw range); when every member is strictly longer (and its waveform obeys
the `__getitem__` trim invariant `len(wav) = len(mel) * hop`), every
start frame lies in `[0, mel_length - batch_max_frames)`, every waveform
crop has length `batch_max_steps` and every mel crop has length
`batch_max_frames`. -/
theorem claim_C3_voc_collate_amended (hop bms : ℕ) (batch : List VocItem)
    (draws : List ℕ) (hhop : 0 < hop) (hdl : draws.length = batch.length) :
    (vocCollate hop bms batch draws = none ↔
      ∃ item ∈ batch, item.mel.length ≤ bms / hop) ∧
    ((∀ item ∈ batch, bms / hop < item.mel.length) →
     (∀ item ∈ batch, item.wav.length = item.mel.length * hop) →
      ∃ crops, vocCollate hop bms batch draws = some crops ∧
        crops.length = batch.length ∧
        ∀ c ∈ crops, c.1.length = bms ∧ c.2.length = bms / hop) ∧
    (∀ (L : ℤ) (d : ℕ) (s : ℤ), npRandint 0 L d = some s → 0 ≤ s ∧ s < L) := by
  have key : vocCollate hop bms batch draws
      = ((batch.zip draws).mapM (fun p : VocItem × ℕ =>
            npRandint 0 ((p.1.mel.length : ℤ) - ((bms / hop : ℕ) : ℤ)) p.2)).map
          (fun starts => (batch.zip starts).map (fun p : VocItem × ℤ =>
            (pySlice p.1.wav (p.2.toNat * hop) (p.2.toNat * hop + bms),
             pySlice p.1.mel p.2.toNat (p.2.toNat + bms / hop)))) := rfl
  refine ⟨?_, ?_, fun L d s h => npRandint_bounds L d s h⟩
  · rw [key]
    have hmapnone : ∀ (o : Option (List ℤ))
        (g : List ℤ → List (List ℚ × List (List ℚ))),
        (o.map g = none ↔ o = none) := by
      intro o g
      cases o <;> simp
    rw [hmapnone, optionMapM_eq_none_iff]
    constructor
    · rintro ⟨⟨a, b⟩, hp, hfp⟩
      dsimp only at hfp
      rw [npRandint_eq_none_iff] at hfp
      refine ⟨a, (List.of_mem_zip hp).1, ?_⟩
      omega
    · rintro ⟨item, hitem, hle⟩
      obtain ⟨i, hi, hieq⟩ := List.mem_iff_getElem.mp hitem
      have hiz : i < (batch.zip draws).length := by
        rw [List.length_zip]
        omega
      refine ⟨(batch.zip draws)[i], List.getElem_mem hiz, ?_⟩
      rw [List.getElem_zip]
      dsimp only
      rw [npRandint_eq_none_iff, hieq]
      omega
  · intro hlong hwav
    have hns : (batch.zip draws).mapM (fun p : VocItem × ℕ =>
        npRandint 0 ((p.1.mel.length : ℤ) - ((bms / hop : ℕ) : ℤ)) p.2) ≠ none := by
      intro hn
      obtain ⟨⟨a, b⟩, hp, hfp⟩ := (optionMapM_eq_none_iff _ _).mp hn
      dsimp only at hfp
      rw [npRandint_eq_none_iff] at hfp
      have := hlong a (List.of_mem_zip hp).1
      omega
    obtain ⟨starts, hstarts⟩ :=
      Option.isSome_iff_exists.mp (Option.ne_none_iff_isSome.mp hns)
    obtain ⟨hslen, hsval⟩ := optionMapM_some_spec _ _ starts hstarts
    rw [List.length_zip] at hslen
    refine ⟨(batch.zip starts).map (fun p : VocItem × ℤ =>
        (pySlice p.1.wav (p.2.toNat * hop) (p.2.toNat * hop + bms),
         pySlice p.1.mel p.2.toNat (p.2.toNat + bms / hop))),
      by rw [key, hstarts]; rfl, ?_, ?_⟩
    · rw [List.length_map, List.length_zip]
      omega
    · intro c hc
      obtain ⟨j, hj, hjeq⟩ := List.mem_iff_getElem.mp hc
      have hjz : j < (batch.zip starts).length := by
        simpa using hj
      have hjb : j < batch.length := by
        rw [List.length_zip] at hjz
        omega
      have hjs : j < starts.length := by
        rw [List.length_zip] at hjz
        omega
      rw [List.getElem_map, List.getElem_zip] at hjeq
      have hFj := hsval j (by rw [List.length_zip]; omega) hjs
      simp only [List.get_eq_getElem, List.getElem_zip] at hFj
      obtain ⟨hs0, hsL⟩ := npRandint_bounds _ _ _ hFj
      have hmem : batch[j] ∈ batch := List.getElem_mem hjb
      have hlongj := hlong batch[j] hmem
      have hwavj := hwav batch[j] hmem
      have hsnat : starts[j].toNat ≤ batch[j].mel.length - bms / hop - 1 := by
        omega
      have haux := cropLen_aux hop bms (bms / hop) batch[j].mel.length
        starts[j].toNat ((Nat.div_lt_iff_lt_mul hhop).mp (by omega))
        hsnat hlongj
      rw [← hjeq]
      constructor
      · rw [pySlice_length, hwavj]
        exact haux.1
      · rw [pySlice_length]
        exact haux.2

/-- C3 (witness): the amended theorem at `hop = 2`,
`batch_max_steps = 4`, one member with 3 mel frames and 6 waveform
samples, draw 5 (start frame `5 % 1 = 0`). -/
theorem claim_C3_witness :
    0 < 2 ∧ ([5] : List ℕ).length = [(⟨List.replicate 6 0, List.replicate 3 [1]⟩ : VocItem)].length ∧
    ((vocCollate 2 4 [⟨List.replicate 6 0, List.replicate 3 [1]⟩] [5] = none ↔
      ∃ item ∈ [(⟨List.replicate 6 0, List.replicate 3 [1]⟩ : VocItem)],
        item.mel.length ≤ 4 / 2) ∧
    ((∀ item ∈ [(⟨List.replicate 6 0, List.replicate 3 [1]⟩ : VocItem)],
        4 / 2 < item.mel.length) →
     (∀ item ∈ [(⟨List.replicate 6 0, List.replicate 3 [1]⟩ : VocItem)],
        item.wav.length = item.mel.length * 2) →
      ∃ crops, vocCollate 2 4 [⟨List.replicate 6 0, List.replicate 3 [1]⟩] [5]
          = some crops ∧
        crops.length = [(⟨List.replicate 6 0, List.replicate 3 [1]⟩ : VocItem)].length ∧
        ∀ c ∈ crops, c.1.length = 4 ∧ c.2.length = 4 / 2) ∧
    (∀ (L : ℤ) (d : ℕ) (s : ℤ), npRandint 0 L d = some s → 0 ≤ s ∧ s < L)) :=
  ⟨by decide, by decide,
    claim_C3_voc_collate_amended 2 4 [⟨List.replicate 6 0, List.replicate 3 [1]⟩] [5]
      (by decide) (by decide)⟩

/-! ### Masking: helper lemmas about `writeAll` and `maskOnes` -/

theorem writeAll_cons (xs : List ℤ) (i : ℕ) (is : List ℕ) (v : ℤ) :
    writeAll xs (i :: is) v = writeAll (xs.set i v) is v := rfl

theorem writeAll_length : ∀ (idxs : List ℕ) (xs : List ℤ) (v : ℤ),
    (writeAll xs idxs v).length = xs.length := by
  intro idxs
  induction idxs with
  | nil => intro xs v; rfl
  | cons i is ih =>
    intro xs v
    rw [writeAll_cons, ih, List.length_set]

theorem writeAll_getD_not_mem : ∀ (idxs : List ℕ) (xs : List ℤ) (v : ℤ) (p : ℕ),
    p ∉ idxs → (writeAll xs idxs v).getD p 0 = xs.getD p 0 := by
  intro idxs
  induction idxs with
  | nil => intro xs v p _; rfl
  | cons i is ih =>
    intro xs v p h
    have hpi : p ≠ i := fun hh => h (hh ▸ List.mem_cons_self i is)
    have hpis : p ∉ is := fun hh => h (List.mem_cons_of_mem i hh)
    rw [writeAll_cons, ih _ _ _ hpis, List.getD_eq_getElem?_getD,
      List.getD_eq_getElem?_getD, List.getElem?_set_ne (Ne.symm hpi)]

theorem writeAll_getD_mem : ∀ (idxs : List ℕ) (xs : List ℤ) (v : ℤ) (p : ℕ),
    p ∈ idxs → p < xs.length → (writeAll xs idxs v).getD p 0 = v := by
  intro idxs
  induction idxs with
  | nil => intro xs v p h _; exact absurd h (List.not_mem_nil p)
  | cons i is ih =>
    intro xs v p h hp
    rw [writeAll_cons]
    by_cases hpis : p ∈ is
    · exact ih _ _ _ hpis (by rw [List.length_set]; exact hp)
    · have hpi : p = i := by
        rcases List.mem_cons.mp h with h1 | h2
        · exact h1
        · exact absurd h2 hpis
      rw [writeAll_getD_not_mem is _ v p hpis]
      subst hpi
      rw [List.getD_eq_getElem?_getD, List.getElem?_set_self hp]
      rfl

theorem writeAll_if (xs : List ℤ) (idxs : List ℕ) (v : ℤ) :
    (if 0 < idxs.length then writeAll xs idxs v else xs) = writeAll xs idxs v := by
  cases idxs with
  | nil => simp [writeAll]
  | cons i is => simp

theorem maskOnes_mem_iff (mask : List ℕ) (i : ℕ) :
    i ∈ maskOnes mask ↔ i < mask.length ∧ mask.getD i 0 = 1 := by
  simp [maskOnes, List.mem_filter, List.mem_range]

theorem maskOnes_nodup (mask : List ℕ) : (maskOnes mask).Nodup :=
  (List.nodup_range mask.length).filter _

theorem maskOnes_getD_mem (mask : List ℕ) (j : ℕ)
    (h : j < (maskOnes mask).length) :
    (maskOnes mask).getD j 0 ∈ maskOnes mask := by
  rw [List.getD_eq_getElem _ _ h]
  exact List.getElem_mem h

theorem nodup_getD_inj (l : List ℕ) (hl : l.Nodup) (j1 j2 : ℕ)
    (h1 : j1 < l.length) (h2 : j2 < l.length)
    (h : l.getD j1 0 = l.getD j2 0) : j1 = j2 := by
  rw [List.getD_eq_getElem _ _ h1, List.getD_eq_getElem _ _ h2] at h
  exact (List.Nodup.getElem_inj_iff hl).mp h

theorem floor_toNat_le (n : ℕ) (p : ℚ) (hp : p ≤ 1) :
    (Int.floor ((n : ℚ) * p)).toNat ≤ n := by
  have h1 : (n : ℚ) * p ≤ (n : ℚ) :=
    mul_le_of_le_one_right (by positivity) hp
  have h2 : Int.floor ((n : ℚ) * p) ≤ Int.floor ((n : ℚ) : ℚ) :=
    Int.floor_le_floor h1
  rw [Int.floor_natCast] at h2
  exact Int.toNat_le.mpr h2

theorem floor_toNat_add_le (n : ℕ) (p2 p3 : ℚ) (hp2 : 0 ≤ p2) (hp3 : 0 ≤ p3)
    (hsum : p2 + p3 ≤ 1) :
    (Int.floor ((n : ℚ) * p2)).toNat + (Int.floor ((n : ℚ) * p3)).toNat ≤ n := by
  have ha : (0 : ℚ) ≤ (n : ℚ) * p2 := by positivity
  have hb : (0 : ℚ) ≤ (n : ℚ) * p3 := by positivity
  have hf2 : (0 : ℤ) ≤ Int.floor ((n : ℚ) * p2) := Int.floor_nonneg.mpr ha
  have hf3 : (0 : ℤ) ≤ Int.floor ((n : ℚ) * p3) := Int.floor_nonneg.mpr hb
  have hle2 : ((Int.floor ((n : ℚ) * p2) : ℚ)) ≤ (n : ℚ) * p2 := Int.floor_le _
  have hle3 : ((Int.floor ((n : ℚ) * p3) : ℚ)) ≤ (n : ℚ) * p3 := Int.floor_le _
  have hmul : (n : ℚ) * p2 + (n : ℚ) * p3 ≤ (n : ℚ) := by
    have : (n : ℚ) * (p2 + p3) ≤ (n : ℚ) * 1 :=
      mul_le_mul_of_nonneg_left hsum (by positivity)
    nlinarith
  have hzsum : Int.floor ((n : ℚ) * p2) + Int.floor ((n : ℚ) * p3) ≤ (n : ℤ) := by
    have : ((Int.floor ((n : ℚ) * p2) + Int.floor ((n : ℚ) * p3) : ℤ) : ℚ)
        ≤ (n : ℚ) := by
      push_cast
      linarith
    exact_mod_cast this
  omega

theorem inputBertMasking_eq (seq : List ℤ) (maskSym : ℤ) (mask : List ℕ)
    (p2 p3 : ℚ) (rand : List ℕ) (tok : ℤ) :
    inputBertMasking seq maskSym mask p2 p3 rand tok
      = writeAll (writeAll seq (maskIdP2 mask p2 rand) maskSym)
          (maskIdP3 mask p2 p3 rand) tok := by
  show (let seqMask := seq
    let idx2 := maskIdP2 mask p2 rand
    let seqMask := if 0 < idx2.length then writeAll seqMask idx2 maskSym else seqMask
    let idx3 := maskIdP3 mask p2 p3 rand
    let seqMask := if 0 < idx3.length then writeAll seqMask idx3 tok else seqMask
    seqMask) = _
  simp only
  rw [writeAll_if, writeAll_if]

theorem maskIdP2_subset (mask : List ℕ) (p2 : ℚ) (rand : List ℕ)
    (hperm : rand.Perm (List.range (maskOnes mask).length)) :
    ∀ i ∈ maskIdP2 mask p2 rand, i ∈ maskOnes mask := by
  intro i hi
  simp only [maskIdP2, List.mem_map] at hi
  obtain ⟨j, hj, hji⟩ := hi
  have hjr : j ∈ rand := List.mem_of_mem_take hj
  have hjn : j < (maskOnes mask).length := by
    have := (hperm.mem_iff).mp hjr
    exact List.mem_range.mp this
  rw [← hji]
  exact maskOnes_getD_mem mask j hjn

theorem maskIdP3_subset (mask : List ℕ) (p2 p3 : ℚ) (rand : List ℕ)
    (hperm : rand.Perm (List.range (maskOnes mask).length)) :
    ∀ i ∈ maskIdP3 mask p2 p3 rand, i ∈ maskOnes mask := by
  intro i hi
  simp only [maskIdP3, List.mem_map] at hi
  obtain ⟨j, hj, hji⟩ := hi
  have hjr : j ∈ rand := List.mem_of_mem_drop (List.mem_of_mem_take hj)
  have hjn : j < (maskOnes mask).length := by
    have := (hperm.mem_iff).mp hjr
    exact List.mem_range.mp this
  rw [← hji]
  exact maskOnes_getD_mem mask j hjn

/-! ### C4: the three-way corruption split of `_input_bert_masking` -/

/-- C4: among the positions with `mask == 1` (with the internal shuffle
supplied as a permutation `rand` of their count `n`), the first
`floor(n * p2)` shuffled positions are overwritten with the mask token,
the next `floor(n * p3)` are all overwritten with the single drawn token
`tok ∈ [0, vocab)`, the two slices are disjoint duplicate-free subsets of
the masked positions with exactly those sizes, and every other position —
in particular every position with `mask == 0` — keeps its original
symbol. -/
theorem claim_C4_input_bert_masking (seq : List ℤ) (vocab : ℕ)
    (maskSym tok : ℤ) (mask : List ℕ) (p2 p3 : ℚ) (rand : List ℕ)
    (hlen : mask.length = seq.length)
    (hperm : rand.Perm (List.range (maskOnes mask).length))
    (hp2 : 0 ≤ p2) (hp3 : 0 ≤ p3) (hsum : p2 + p3 ≤ 1)
    (htok : 0 ≤ tok ∧ tok < (vocab : ℤ)) :
    (maskIdP2 mask p2 rand).length
      = (Int.floor (((maskOnes mask).length : ℚ) * p2)).toNat ∧
    (maskIdP3 mask p2 p3 rand).length
      = (Int.floor (((maskOnes mask).length : ℚ) * p3)).toNat ∧
    (maskIdP2 mask p2 rand).Nodup ∧
    (maskIdP3 mask p2 p3 rand).Nodup ∧
    (∀ i ∈ maskIdP2 mask p2 rand, i ∈ maskOnes mask) ∧
    (∀ i ∈ maskIdP3 mask p2 p3 rand, i ∈ maskOnes mask) ∧
    (∀ i ∈ maskIdP2 mask p2 rand, i ∉ maskIdP3 mask p2 p3 rand) ∧
    (inputBertMasking seq maskSym mask p2 p3 rand tok).length = seq.length ∧
    (∀ i ∈ maskIdP2 mask p2 rand,
      (inputBertMasking seq maskSym mask p2 p3 rand tok).getD i 0 = maskSym) ∧
    (∀ i ∈ maskIdP3 mask p2 p3 rand,
      (inputBertMasking seq maskSym mask p2 p3 rand tok).getD i 0 = tok) ∧
    (∀ i, i ∉ maskIdP2 mask p2 rand → i ∉ maskIdP3 mask p2 p3 rand →
      (inputBertMasking seq maskSym mask p2 p3 rand tok).getD i 0
        = seq.getD i 0) := by
  have hp2le1 : p2 ≤ 1 := by linarith
  have hp3le1 : p3 ≤ 1 := by linarith
  have hrandlen : rand.length = (maskOnes mask).length :=
    hperm.length_eq.trans (List.length_range _)
  have hrandnodup : rand.Nodup :=
    hperm.symm.nodup (List.nodup_range _)
  have hrandmem : ∀ j ∈ rand, j < (maskOnes mask).length := by
    intro j hj
    exact List.mem_range.mp ((hperm.mem_iff).mp hj)
  have hk2le : (Int.floor (((maskOnes mask).length : ℚ) * p2)).toNat
      ≤ (maskOnes mask).length := floor_toNat_le _ p2 hp2le1
  have hk23le : (Int.floor (((maskOnes mask).length : ℚ) * p2)).toNat
        + (Int.floor (((maskOnes mask).length : ℚ) * p3)).toNat
      ≤ (maskOnes mask).length := floor_toNat_add_le _ p2 p3 hp2 hp3 hsum
  have hinj : ∀ j1 ∈ rand, ∀ j2 ∈ rand,
      (maskOnes mask).getD j1 0 = (maskOnes mask).getD j2 0 → j1 = j2 := by
    intro j1 hj1 j2 hj2 h
    exact nodup_getD_inj (maskOnes mask) (maskOnes_nodup mask) j1 j2
      (hrandmem j1 hj1) (hrandmem j2 hj2) h
  have hlen2 : (maskIdP2 mask p2 rand).length
      = (Int.floor (((maskOnes mask).length : ℚ) * p2)).toNat := by
    simp only [maskIdP2, List.length_map, List.length_take]
    omega
  have hlen3 : (maskIdP3 mask p2 p3 rand).length
      = (Int.floor (((maskOnes mask).length : ℚ) * p3)).toNat := by
    simp only [maskIdP3, List.length_map, List.length_take, List.length_drop]
    omega
  have hnodup2 : (maskIdP2 mask p2 rand).Nodup := by
    simp only [maskIdP2]
    refine List.Nodup.map_on ?_
      (List.Nodup.sublist (List.take_sublist _ _) hrandnodup)
    intro x hx y hy h
    exact hinj x (List.mem_of_mem_take hx) y (List.mem_of_mem_take hy) h
  have hnodup3 : (maskIdP3 mask p2 p3 rand).Nodup := by
    simp only [maskIdP3]
    refine List.Nodup.map_on ?_
      (List.Nodup.sublist
        ((List.take_sublist _ _).trans (List.drop_sublist _ _)) hrandnodup)
    intro x hx y hy h
    exact hinj x (List.mem_of_mem_drop (List.mem_of_mem_take hx))
      y (List.mem_of_mem_drop (List.mem_of_mem_take hy)) h
  have hdisj : ∀ i ∈ maskIdP2 mask p2 rand, i ∉ maskIdP3 mask p2 p3 rand := by
    intro i hi2 hi3
    simp only [maskIdP2, List.mem_map] at hi2
    simp only [maskIdP3, List.mem_map] at hi3
    obtain ⟨j1, hj1, hj1i⟩ := hi2
    obtain ⟨j2, hj2, hj2i⟩ := hi3
    have hj2d : j2 ∈ rand.drop (Int.floor (((maskOnes mask).length : ℚ) * p2)).toNat :=
      List.mem_of_mem_take hj2
    have heq : j1 = j2 := by
      refine hinj j1 (List.mem_of_mem_take hj1) j2 (List.mem_of_mem_drop hj2d) ?_
      rw [hj1i, hj2i]
    exact List.disjoint_take_drop hrandnodup le_rfl hj1 (heq ▸ hj2d)
  have hmaskmem_lt : ∀ i ∈ maskOnes mask, i < seq.length := by
    intro i hi
    have := (maskOnes_mem_iff mask i).mp hi
    omega
  have hsub2 := maskIdP2_subset mask p2 rand hperm
  have hsub3 := maskIdP3_subset mask p2 p3 rand hperm
  have hkey := inputBertMasking_eq seq maskSym mask p2 p3 rand tok
  have houtlen : (inputBertMasking seq maskSym mask p2 p3 rand tok).length
      = seq.length := by
    rw [hkey, writeAll_length, writeAll_length]
  refine ⟨hlen2, hlen3, hnodup2, hnodup3, hsub2, hsub3, hdisj, houtlen, ?_, ?_, ?_⟩
  · intro i hi2
    rw [hkey, writeAll_getD_not_mem _ _ _ _ (hdisj i hi2),
      writeAll_getD_mem _ _ _ _ hi2 (hmaskmem_lt i (hsub2 i hi2))]
  · intro i hi3
    rw [hkey, writeAll_getD_mem _ _ _ _ hi3]
    rw [writeAll_length]
    exact hmaskmem_lt i (hsub3 i hi3)
  · intro i hi2 hi3
    rw [hkey, writeAll_getD_not_mem _ _ _ _ hi3,
      writeAll_getD_not_mem _ _ _ _ hi2]

/-- C4 (witness): the theorem at `seq = [10, 20, 30, 40]`,
`mask = [1, 1, 1, 0]` (3 masked positions), shuffle `[2, 0, 1]`,
`p2 = 4/5`, `p3 = 1/10` (slice sizes 2 and 0), `tok = 7`, `vocab = 50`. -/
theorem claim_C4_witness :
    ([1, 1, 1, 0] : List ℕ).length = ([10, 20, 30, 40] : List ℤ).length ∧
    ([2, 0, 1] : List ℕ).Perm (List.range (maskOnes [1, 1, 1, 0]).length) ∧
    (0 : ℚ) ≤ 4 / 5 ∧ (0 : ℚ) ≤ 1 / 10 ∧ (4 / 5 : ℚ) + 1 / 10 ≤ 1 ∧
    ((0 : ℤ) ≤ 7 ∧ (7 : ℤ) < ((50 : ℕ) : ℤ)) ∧
    ((maskIdP2 [1, 1, 1, 0] (4 / 5) [2, 0, 1]).length
      = (Int.floor (((maskOnes [1, 1, 1, 0]).length : ℚ) * (4 / 5))).toNat ∧
    (maskIdP3 [1, 1, 1, 0] (4 / 5) (1 / 10) [2, 0, 1]).length
      = (Int.floor (((maskOnes [1, 1, 1, 0]).length : ℚ) * (1 / 10))).toNat ∧
    (maskIdP2 [1, 1, 1, 0] (4 / 5) [2, 0, 1]).Nodup ∧
    (maskIdP3 [1, 1, 1, 0] (4 / 5) (1 / 10) [2, 0, 1]).Nodup ∧
    (∀ i ∈ maskIdP2 [1, 1, 1, 0] (4 / 5) [2, 0, 1], i ∈ maskOnes [1, 1, 1, 0]) ∧
    (∀ i ∈ maskIdP3 [1, 1, 1, 0] (4 / 5) (1 / 10) [2, 0, 1],
      i ∈ maskOnes [1, 1, 1, 0]) ∧
    (∀ i ∈ maskIdP2 [1, 1, 1, 0] (4 / 5) [2, 0, 1],
      i ∉ maskIdP3 [1, 1, 1, 0] (4 / 5) (1 / 10) [2, 0, 1]) ∧
    (inputBertMasking [10, 20, 30, 40] 99 [1, 1, 1, 0] (4 / 5) (1 / 10)
        [2, 0, 1] 7).length = ([10, 20, 30, 40] : List ℤ).length ∧
    (∀ i ∈ maskIdP2 [1, 1, 1, 0] (4 / 5) [2, 0, 1],
      (inputBertMasking [10, 20, 30, 40] 99 [1, 1, 1, 0] (4 / 5) (1 / 10)
        [2, 0, 1] 7).getD i 0 = 99) ∧
    (∀ i ∈ maskIdP3 [1, 1, 1, 0] (4 / 5) (1 / 10) [2, 0, 1],
      (inputBertMasking [10, 20, 30, 40] 99 [1, 1, 1, 0] (4 / 5) (1 / 10)
        [2, 0, 1] 7).getD i 0 = 7) ∧
    (∀ i, i ∉ maskIdP2 [1, 1, 1, 0] (4 / 5) [2, 0, 1] →
      i ∉ maskIdP3 [1, 1, 1, 0] (4 / 5) (1 / 10) [2, 0, 1] →
      (inputBertMasking [10, 20, 30, 40] 99 [1, 1, 1, 0] (4 / 5) (1 / 10)
        [2, 0, 1] 7).getD i 0 = ([10, 20, 30, 40] : List ℤ).getD i 0)) :=
  ⟨by decide, by decide, by norm_num, by norm_num, by norm_num,
    ⟨by norm_num, by norm_num⟩,
    claim_C4_input_bert_masking [10, 20, 30, 40] 50 99 7 [1, 1, 1, 0]
      (4 / 5) (1 / 10) [2, 0, 1] (by decide) (by decide)
      (by norm_num) (by norm_num) (by norm_num) ⟨by norm_num, by norm_num⟩⟩

/-! ### C5: the sequence terminator survives `bert_masking` -/

/-- C5: for every linguistic tuple with a non-empty symbol stream,
`bert_masking` returns a mask whose final entry is 0 and a corrupted
stream whose final symbol equals the original final symbol.  The internal
shuffle is supplied as a permutation of the masked-position count of the
computed mask. -/
theorem claim_C5_bert_masking_terminator (p1 p2 p3 : ℚ) (maskSym : ℤ)
    (rng : MaskRng) (lingData : List (List ℤ))
    (hne : lingData.getD 0 [] ≠ [])
    (hperm : rng.perm.Perm (List.range
      (maskOnes ((getRandomMask (lingData.getD 0 []).length p1
          rng.uniforms).set ((lingData.getD 0 []).length - 1) 0)).length)) :
    ((bertMasking p1 p2 p3 maskSym rng lingData).1.length
        = (lingData.getD 0 []).length ∧
      (bertMasking p1 p2 p3 maskSym rng lingData).1.getD
        ((lingData.getD 0 []).length - 1) 0 = 0) ∧
    ((bertMasking p1 p2 p3 maskSym rng lingData).2.length
        = (lingData.getD 0 []).length ∧
      (bertMasking p1 p2 p3 maskSym rng lingData).2.getD
        ((lingData.getD 0 []).length - 1) 0
        = (lingData.getD 0 []).getD ((lingData.getD 0 []).length - 1) 0) := by
  have hn : 0 < (lingData.getD 0 []).length := List.length_pos.mpr hne
  have hmask1 : (bertMasking p1 p2 p3 maskSym rng lingData).1
      = (getRandomMask (lingData.getD 0 []).length p1 rng.uniforms).set
          ((lingData.getD 0 []).length - 1) 0 := rfl
  have hmask2 : (bertMasking p1 p2 p3 maskSym rng lingData).2
      = inputBertMasking (lingData.getD 0 []) maskSym
          ((getRandomMask (lingData.getD 0 []).length p1 rng.uniforms).set
            ((lingData.getD 0 []).length - 1) 0) p2 p3 rng.perm rng.tok := rfl
  have hgrlen : (getRandomMask (lingData.getD 0 []).length p1
      rng.uniforms).length = (lingData.getD 0 []).length := by
    simp [getRandomMask]
  have hmlen : ((getRandomMask (lingData.getD 0 []).length p1
        rng.uniforms).set ((lingData.getD 0 []).length - 1) 0).length
      = (lingData.getD 0 []).length := by
    rw [List.length_set, hgrlen]
  have hlast0 : ((getRandomMask (lingData.getD 0 []).length p1
        rng.uniforms).set ((lingData.getD 0 []).length - 1) 0).getD
      ((lingData.getD 0 []).length - 1) 0 = 0 := by
    rw [List.getD_eq_getElem?_getD, List.getElem?_set_self (by omega)]
    rfl
  have hlastout : ((lingData.getD 0 []).length - 1)
      ∉ maskOnes ((getRandomMask (lingData.getD 0 []).length p1
        rng.uniforms).set ((lingData.getD 0 []).length - 1) 0) := by
    intro h
    have := ((maskOnes_mem_iff _ _).mp h).2
    rw [hlast0] at this
    exact absurd this (by decide)
  have hsub2 := maskIdP2_subset _ p2 rng.perm hperm
  have hsub3 := maskIdP3_subset _ p2 p3 rng.perm hperm
  have hnot2 : ((lingData.getD 0 []).length - 1)
      ∉ maskIdP2 ((getRandomMask (lingData.getD 0 []).length p1
        rng.uniforms).set ((lingData.getD 0 []).length - 1) 0) p2 rng.perm :=
    fun h => hlastout (hsub2 _ h)
  have hnot3 : ((lingData.getD 0 []).length - 1)
      ∉ maskIdP3 ((getRandomMask (lingData.getD 0 []).length p1
        rng.uniforms).set ((lingData.getD 0 []).length - 1) 0) p2 p3 rng.perm :=
    fun h => hlastout (hsub3 _ h)
  refine ⟨⟨by rw [hmask1, hmlen], by rw [hmask1, hlast0]⟩, ?_, ?_⟩
  · rw [hmask2, inputBertMasking_eq, writeAll_length, writeAll_length]
  · rw [hmask2, inputBertMasking_eq,
      writeAll_getD_not_mem _ _ _ _ hnot3, writeAll_getD_not_mem _ _ _ _ hnot2]

/-- C5 (witness): the theorem at `lingData = [[3, 4]]` with an empty
uniform vector (no position masked), `p1 = 0.15`. -/
theorem claim_C5_witness :
    (([[3, 4]] : List (List ℤ)).getD 0 [] ≠ [] ∧
      (⟨[], [], 7⟩ : MaskRng).perm.Perm (List.range
        (maskOnes ((getRandomMask (([[3, 4]] : List (List ℤ)).getD 0 []).length
            (15 / 100) (⟨[], [], 7⟩ : MaskRng).uniforms).set
          ((([[3, 4]] : List (List ℤ)).getD 0 []).length - 1) 0)).length)) ∧
    (((bertMasking (15 / 100) (4 / 5) (1 / 10) 99 ⟨[], [], 7⟩ [[3, 4]]).1.length
        = (([[3, 4]] : List (List ℤ)).getD 0 []).length ∧
      (bertMasking (15 / 100) (4 / 5) (1 / 10) 99 ⟨[], [], 7⟩ [[3, 4]]).1.getD
        ((([[3, 4]] : List (List ℤ)).getD 0 []).length - 1) 0 = 0) ∧
    ((bertMasking (15 / 100) (4 / 5) (1 / 10) 99 ⟨[], [], 7⟩ [[3, 4]]).2.length
        = (([[3, 4]] : List (List ℤ)).getD 0 []).length ∧
      (bertMasking (15 / 100) (4 / 5) (1 / 10) 99 ⟨[], [], 7⟩ [[3, 4]]).2.getD
        ((([[3, 4]] : List (List ℤ)).getD 0 []).length - 1) 0
        = (([[3, 4]] : List (List ℤ)).getD 0 []).getD
            ((([[3, 4]] : List (List ℤ)).getD 0 []).length - 1) 0)) := by
  have hperm : (⟨[], [], 7⟩ : MaskRng).perm.Perm (List.range
      (maskOnes ((getRandomMask (([[3, 4]] : List (List ℤ)).getD 0 []).length
          (15 / 100) (⟨[], [], 7⟩ : MaskRng).uniforms).set
        ((([[3, 4]] : List (List ℤ)).getD 0 []).length - 1) 0)).length) := by
    have h1 : getRandomMask (([[3, 4]] : List (List ℤ)).getD 0 []).length
        (15 / 100) (⟨[], [], 7⟩ : MaskRng).uniforms = [0, 0] := by
      show (List.range 2).map (fun i => if ([] : List ℚ).getD i 1 < 15 / 100
        then 1 else 0) = [0, 0]
      norm_num [List.range_succ]
    rw [h1]
    decide
  exact ⟨⟨by decide, hperm⟩,
    claim_C5_bert_masking_terminator (15 / 100) (4 / 5) (1 / 10) 99
      ⟨[], [], 7⟩ [[3, 4]] (by decide) hperm⟩

/-! ### C10: `_input_bert_masking` does not mutate its arguments -/

/-- C10: running `_input_bert_masking` statement by statement over the
environment of reachable arrays leaves the `sequence_array` and `mask`
arguments exactly as supplied — every write lands in the local copy — and
the returned corrupted stream is that fresh copy, equal to the pure
function of the inputs. -/
theorem claim_C10_no_mutation (seq : List ℤ) (maskSym : ℤ) (mask : List ℕ)
    (p2 p3 : ℚ) (rand : List ℕ) (tok : ℤ) :
    (inputBertMaskingRun seq maskSym mask p2 p3 rand tok).1.sequence_array
        = seq ∧
    (inputBertMaskingRun seq maskSym mask p2 p3 rand tok).1.mask = mask ∧
    (inputBertMaskingRun seq maskSym mask p2 p3 rand tok).2
      = inputBertMasking seq maskSym mask p2 p3 rand tok := by
  unfold inputBertMaskingRun inputBertMasking
  by_cases h2 : 0 < (maskIdP2 mask p2 rand).length <;>
    by_cases h3 : 0 < (maskIdP3 mask p2 p3 rand).length <;>
      simp [h2, h3]

/-! ### C6: the `BERT_Text_Dataset` cache holds only clean data and
masking is fresh on every access -/

/-- C6: for a caching-enabled dataset whose cache satisfies the
invariant (every slot is the empty tuple or the one-element tuple of the
clean encoded linguistic data), `__getitem__` preserves the invariant,
leaves the manifest untouched, returns the clean linguistic data of the
index, and computes the returned mask and corrupted stream by a fresh
`bert_masking` call with this access's randomness — also on cache hits. -/
theorem claim_C6_bert_cache (p1 p2 p3 : ℚ) (maskSym : ℤ)
    (encode : String → List (List ℤ)) (ds : BertDataset) (idx : ℕ)
    (rng : MaskRng) (hcache : ds.allowCache = true)
    (hinv : BertCacheInv encode ds) :
    BertCacheInv encode (bertGetItem p1 p2 p3 maskSym encode ds idx rng).2 ∧
    (bertGetItem p1 p2 p3 maskSym encode ds idx rng).2.meta = ds.meta ∧
    (bertGetItem p1 p2 p3 maskSym encode ds idx rng).1.1
      = encode (ds.meta.getD idx "") ∧
    ((bertGetItem p1 p2 p3 maskSym encode ds idx rng).1.2.2,
     (bertGetItem p1 p2 p3 maskSym encode ds idx rng).1.2.1)
      = bertMasking p1 p2 p3 maskSym rng
          ((bertGetItem p1 p2 p3 maskSym encode ds idx rng).1.1) := by
  by_cases hhit : (ds.caches.getD idx []).length ≠ 0
  · have hcond : (ds.allowCache = true) ∧ (ds.caches.getD idx []).length ≠ 0 :=
      ⟨hcache, hhit⟩
    have hslot : ds.caches.getD idx [] = [encode (ds.meta.getD idx "")] := by
      rcases hinv idx with h | h
      · exact absurd (by rw [h]; rfl) hhit
      · exact h
    have hkey : bertGetItem p1 p2 p3 maskSym encode ds idx rng
        = (((ds.caches.getD idx []).getD 0 [],
            (bertMasking p1 p2 p3 maskSym rng
              ((ds.caches.getD idx []).getD 0 [])).2,
            (bertMasking p1 p2 p3 maskSym rng
              ((ds.caches.getD idx []).getD 0 [])).1), ds) := by
      unfold bertGetItem
      rw [if_pos hcond]
    rw [hkey, hslot]
    exact ⟨hinv, rfl, rfl, rfl⟩
  · have hcond : ¬ ((ds.allowCache = true) ∧
        (ds.caches.getD idx []).length ≠ 0) := by
      intro h
      exact hhit h.2
    have hkey : bertGetItem p1 p2 p3 maskSym encode ds idx rng
        = ((encode (ds.meta.getD idx ""),
            (bertMasking p1 p2 p3 maskSym rng
              (encode (ds.meta.getD idx ""))).2,
            (bertMasking p1 p2 p3 maskSym rng
              (encode (ds.meta.getD idx ""))).1),
           { ds with
              caches := ds.caches.set idx [encode (ds.meta.getD idx "")] }) := by
      unfold bertGetItem
      rw [if_neg hcond, if_pos hcache]
    rw [hkey]
    refine ⟨?_, rfl, rfl, rfl⟩
    intro j
    show (ds.caches.set idx [encode (ds.meta.getD idx "")]).getD j [] = []
      ∨ _ = [encode (ds.meta.getD j "")]
    rw [List.getD_eq_getElem?_getD, List.getElem?_set]
    by_cases hji : idx = j
    · subst hji
      by_cases hlt : idx < ds.caches.length
      · simp only [if_pos rfl, if_pos hlt]
        exact Or.inr rfl
      · simp only [if_pos rfl, if_neg hlt]
        exact Or.inl rfl
    · simp only [if_neg hji]
      rw [← List.getD_eq_getElem?_getD]
      exact hinv j

/-- C6 (witness): the theorem at a one-entry dataset with caching
enabled and an initially empty cache slot. -/
theorem claim_C6_witness :
    ((⟨["t"], true, [[]]⟩ : BertDataset).allowCache = true ∧
      BertCacheInv (fun _ => [[5]]) (⟨["t"], true, [[]]⟩ : BertDataset)) ∧
    (BertCacheInv (fun _ => [[5]])
      (bertGetItem (15 / 100) (4 / 5) (1 / 10) 99 (fun _ => [[5]])
        (⟨["t"], true, [[]]⟩ : BertDataset) 0 ⟨[], [], 7⟩).2 ∧
    (bertGetItem (15 / 100) (4 / 5) (1 / 10) 99 (fun _ => [[5]])
        (⟨["t"], true, [[]]⟩ : BertDataset) 0 ⟨[], [], 7⟩).2.meta
      = (⟨["t"], true, [[]]⟩ : BertDataset).meta ∧
    (bertGetItem (15 / 100) (4 / 5) (1 / 10) 99 (fun _ => [[5]])
        (⟨["t"], true, [[]]⟩ : BertDataset) 0 ⟨[], [], 7⟩).1.1
      = (fun (_ : String) => [[(5 : ℤ)]])
          ((⟨["t"], true, [[]]⟩ : BertDataset).meta.getD 0 "") ∧
    ((bertGetItem (15 / 100) (4 / 5) (1 / 10) 99 (fun _ => [[5]])
        (⟨["t"], true, [[]]⟩ : BertDataset) 0 ⟨[], [], 7⟩).1.2.2,
     (bertGetItem (15 / 100) (4 / 5) (1 / 10) 99 (fun _ => [[5]])
        (⟨["t"], true, [[]]⟩ : BertDataset) 0 ⟨[], [], 7⟩).1.2.1)
      = bertMasking (15 / 100) (4 / 5) (1 / 10) 99 ⟨[], [], 7⟩
          (bertGetItem (15 / 100) (4 / 5) (1 / 10) 99 (fun _ => [[5]])
            (⟨["t"], true, [[]]⟩ : BertDataset) 0 ⟨[], [], 7⟩).1.1) := by
  have hinv : BertCacheInv (fun _ => [[5]]) (⟨["t"], true, [[]]⟩ : BertDataset) := by
    intro j
    match j with
    | 0 => exact Or.inl rfl
    | n + 1 => exact Or.inl rfl
  exact ⟨⟨rfl, hinv⟩,
    claim_C6_bert_cache (15 / 100) (4 / 5) (1 / 10) 99 (fun _ => [[5]])
      ⟨["t"], true, [[]]⟩ 0 ⟨[], [], 7⟩ rfl hinv⟩

end KanTts
